import Mathlib

/-!
Verification of the recipe / bundler pipeline of the cloud-native-stack
repository.  Go code is shallowly embedded: Go `string`-typedef enums become
`String`, Go `int` becomes `Int`, fallible functions return `Except`/`Option`,
and imperative loops become explicit recursion.  Each definition mirrors one
named Go function of the repository source.
-/

namespace CNS

/-! ### Criteria model (`pkg/recipe/criteria.go`)

`Criteria` has six string-typed enum fields and one integer field.  In Go the
enum types are typedefs of `string`, so arbitrary strings are representable;
the distinguished wildcard value is the string `"any"`. -/

/-- The wildcard value `criteriaAnyValue` from `criteria.go`. -/
def criteriaAnyValue : String := "any"

/-- `Criteria` from `criteria.go`: the seven matching fields.  Go field types
`CriteriaServiceType` etc. are string typedefs, embedded as `String`; `Nodes`
is a Go `int`, embedded as `Int`. -/
structure Criteria where
  service : String
  fabric : String
  accelerator : String
  intent : String
  worker : String
  system : String
  nodes : Int
  deriving DecidableEq, Repr

/-- `NewCriteria` from `criteria.go`: every enum field `"any"`, nodes `0`. -/
def NewCriteria : Criteria :=
  { service := "any", fabric := "any", accelerator := "any", intent := "any"
    worker := "any", system := "any", nodes := 0 }

/-- ASCII whitespace trimmed by Go `strings.TrimSpace` (the Unicode cases do
not affect any accepted token). -/
def isSpaceChar (c : Char) : Bool :=
  c = ' ' ∨ c = '\t' ∨ c = '\n' ∨ c = '\r' ∨ c = '\x0b' ∨ c = '\x0c'

/-- ASCII lower-casing performed by Go `strings.ToLower` on ASCII input. -/
def asciiLower (c : Char) : Char :=
  if 'A' ≤ c ∧ c ≤ 'Z' then Char.ofNat (c.toNat + 32) else c

/-- Go `strings.ToLower ∘ strings.TrimSpace` applied by every enum parser,
modelled character-wise on the ASCII range, which covers every accepted
token. -/
def normToken (s : String) : String :=
  String.mk
    ((((s.toList.dropWhile (fun c => isSpaceChar c)).reverse.dropWhile
        (fun c => isSpaceChar c)).reverse).map asciiLower)

/-- `ParseCriteriaServiceType` from `criteria.go`: the Go `switch` on the
normalized token, written as the equivalent chain of equality tests. -/
def ParseCriteriaServiceType (s : String) : Except String String :=
  let t := normToken s
  if t = "" ∨ t = "any" ∨ t = "self-managed" ∨ t = "self" ∨ t = "vanilla" then
    Except.ok "any"
  else if t = "eks" then Except.ok "eks"
  else if t = "gke" then Except.ok "gke"
  else if t = "aks" then Except.ok "aks"
  else if t = "oke" then Except.ok "oke"
  else Except.error ("invalid service type: " ++ s)

/-- `ParseCriteriaFabricType` from `criteria.go`. -/
def ParseCriteriaFabricType (s : String) : Except String String :=
  let t := normToken s
  if t = "" ∨ t = "any" then Except.ok "any"
  else if t = "efa" then Except.ok "efa"
  else if t = "ib" ∨ t = "infiniband" then Except.ok "ib"
  else Except.error ("invalid fabric type: " ++ s)

/-- `ParseCriteriaAcceleratorType` from `criteria.go`. -/
def ParseCriteriaAcceleratorType (s : String) : Except String String :=
  let t := normToken s
  if t = "" ∨ t = "any" then Except.ok "any"
  else if t = "h100" then Except.ok "h100"
  else if t = "gb200" then Except.ok "gb200"
  else if t = "a100" then Except.ok "a100"
  else if t = "l40" then Except.ok "l40"
  else Except.error ("invalid accelerator type: " ++ s)

/-- `ParseCriteriaIntentType` from `criteria.go`. -/
def ParseCriteriaIntentType (s : String) : Except String String :=
  let t := normToken s
  if t = "" ∨ t = "any" then Except.ok "any"
  else if t = "training" then Except.ok "training"
  else if t = "inference" then Except.ok "inference"
  else Except.error ("invalid intent type: " ++ s)

/-- `ParseCriteriaOSType` from `criteria.go`. -/
def ParseCriteriaOSType (s : String) : Except String String :=
  let t := normToken s
  if t = "" ∨ t = "any" then Except.ok "any"
  else if t = "ubuntu" then Except.ok "ubuntu"
  else if t = "rhel" then Except.ok "rhel"
  else if t = "cos" then Except.ok "cos"
  else if t = "amazonlinux" ∨ t = "al2" ∨ t = "al2023" then Except.ok "amazonlinux"
  else Except.error ("invalid os type: " ++ s)

/-! ### URL values and `fmt.Sscanf "%d"` -/

/-- Go `url.Values`: a map from key to the list of supplied values. -/
def Values : Type := String → List String

/-- `url.Values.Get`: first value for the key, or `""` when absent. -/
def valuesGet (v : Values) (k : String) : String := (v k).headD ""

/-- Leading-space skipping performed by `fmt.Sscanf` before a `%d` verb
(newlines are not skipped in `Sscanf` mode). -/
def skipSpaces : List Char → List Char
  | [] => []
  | c :: cs => if c = ' ' ∨ c = '\t' then skipSpaces cs else c :: cs

/-- Decimal value of a digit list. -/
def digitsVal (ds : List Char) : Nat :=
  ds.foldl (fun acc c => acc * 10 + (c.toNat - '0'.toNat)) 0

/-- Model of `fmt.Sscanf(s, "%d", &n)` for a Go 64-bit `int`: skip leading
spaces/tabs, an optional sign, then at least one decimal digit; the scanned
prefix must fit in `int64`.  `none` models a non-nil scan error. -/
def sscanfInt (s : String) : Option Int :=
  let cs := skipSpaces s.toList
  let signed : Bool × List Char :=
    match cs with
    | '-' :: t => (true, t)
    | '+' :: t => (false, t)
    | t => (false, t)
  let ds := signed.2.takeWhile (fun c => c.isDigit)
  if ds = [] then none
  else
    let v : Nat := digitsVal ds
    if signed.1 then
      if v ≤ 2 ^ 63 then some (-(v : Int)) else none
    else
      if v ≤ 2 ^ 63 - 1 then some (v : Int) else none

/-- The `service` block of `ParseCriteriaFromValues` (`criteria.go` 425-431). -/
def parseServiceParam (v : Values) (c : Criteria) : Except String Criteria :=
  if valuesGet v "service" = "" then pure c
  else do
    let st ← ParseCriteriaServiceType (valuesGet v "service")
    pure { c with service := st }

/-- The `fabric` block of `ParseCriteriaFromValues` (`criteria.go` 434-440). -/
def parseFabricParam (v : Values) (c : Criteria) : Except String Criteria :=
  if valuesGet v "fabric" = "" then pure c
  else do
    let ft ← ParseCriteriaFabricType (valuesGet v "fabric")
    pure { c with fabric := ft }

/-- The effective accelerator parameter: `accelerator`, falling back to the
`gpu` alias when absent (`criteria.go` 443-446). -/
def accelParam (v : Values) : String :=
  if valuesGet v "accelerator" = "" then valuesGet v "gpu"
  else valuesGet v "accelerator"

/-- The `accelerator` block of `ParseCriteriaFromValues` (`criteria.go` 447-453). -/
def parseAccelParam (v : Values) (c : Criteria) : Except String Criteria :=
  if accelParam v = "" then pure c
  else do
    let at' ← ParseCriteriaAcceleratorType (accelParam v)
    pure { c with accelerator := at' }

/-- The `intent` block of `ParseCriteriaFromValues` (`criteria.go` 456-462). -/
def parseIntentParam (v : Values) (c : Criteria) : Except String Criteria :=
  if valuesGet v "intent" = "" then pure c
  else do
    let it ← ParseCriteriaIntentType (valuesGet v "intent")
    pure { c with intent := it }

/-- The `worker` block of `ParseCriteriaFromValues` (`criteria.go` 465-471). -/
def parseWorkerParam (v : Values) (c : Criteria) : Except String Criteria :=
  if valuesGet v "worker" = "" then pure c
  else do
    let ot ← ParseCriteriaOSType (valuesGet v "worker")
    pure { c with worker := ot }

/-- The `system` block of `ParseCriteriaFromValues` (`criteria.go` 474-480). -/
def parseSystemParam (v : Values) (c : Criteria) : Except String Criteria :=
  if valuesGet v "system" = "" then pure c
  else do
    let ot ← ParseCriteriaOSType (valuesGet v "system")
    pure { c with system := ot }

/-- The `nodes` block of `ParseCriteriaFromValues` (`criteria.go` 483-492). -/
def parseNodesParam (v : Values) (c : Criteria) : Except String Criteria :=
  if valuesGet v "nodes" = "" then pure c
  else
    match sscanfInt (valuesGet v "nodes") with
    | none => Except.error ("invalid nodes value: " ++ valuesGet v "nodes")
    | some n =>
      if n < 0 then
        Except.error ("invalid nodes count: " ++ toString n ++ " (must be >= 0)")
      else pure { c with nodes := n }

/-- `ParseCriteriaFromValues` from `criteria.go` lines 421-495: starting from
`NewCriteria`, the seven parameter blocks run in source order, each returning
the first parse error encountered; `gpu` is the fallback alias for
`accelerator`; `nodes` is scanned with `%d` and rejected when negative. -/
def ParseCriteriaFromValues (v : Values) : Except String Criteria := do
  let c := NewCriteria
  let c ← parseServiceParam v c
  let c ← parseFabricParam v c
  let c ← parseAccelParam v c
  let c ← parseIntentParam v c
  let c ← parseWorkerParam v c
  let c ← parseSystemParam v c
  let c ← parseNodesParam v c
  pure c

/-- `Criteria.Matches` from `criteria.go` lines 218-248 (the non-nil branch:
the claims quantify over criteria values, not pointers).  Each field vetoes
the match exactly when both sides differ from `"any"` and from each other;
for `nodes`, the value `0` plays the role of `"any"`. -/
def Criteria.Matches (c other : Criteria) : Bool :=
  if c.service ≠ "any" ∧ other.service ≠ "any" ∧ c.service ≠ other.service then
    false
  else if c.fabric ≠ "any" ∧ other.fabric ≠ "any" ∧ c.fabric ≠ other.fabric then
    false
  else if c.accelerator ≠ "any" ∧ other.accelerator ≠ "any" ∧
      c.accelerator ≠ other.accelerator then
    false
  else if c.intent ≠ "any" ∧ other.intent ≠ "any" ∧ c.intent ≠ other.intent then
    false
  else if c.worker ≠ "any" ∧ other.worker ≠ "any" ∧ c.worker ≠ other.worker then
    false
  else if c.system ≠ "any" ∧ other.system ≠ "any" ∧ c.system ≠ other.system then
    false
  else if c.nodes ≠ 0 ∧ other.nodes ≠ 0 ∧ c.nodes ≠ other.nodes then
    false
  else
    true

/-- `Specificity` from `criteria.go`: number of non-`"any"`, non-zero fields. -/
def Criteria.Specificity (c : Criteria) : Int :=
  (if c.service ≠ "any" then 1 else 0) + (if c.fabric ≠ "any" then 1 else 0) +
  (if c.accelerator ≠ "any" then 1 else 0) + (if c.intent ≠ "any" then 1 else 0) +
  (if c.worker ≠ "any" then 1 else 0) + (if c.system ≠ "any" then 1 else 0) +
  (if c.nodes ≠ 0 then 1 else 0)

/-- An early-return `if cond then false else rest` succeeds iff the veto
condition fails and the rest succeeds. -/
theorem if_veto_eq_true (c : Prop) [Decidable c] (x : Bool) :
    ((if c then false else x) = true) ↔ (¬ c ∧ x = true) := by
  split <;> simp_all

/-- A single field vetoes a match exactly when neither side is the wildcard
and the sides differ. -/
theorem not_veto_iff (w x y : String) :
    (¬ (x ≠ w ∧ y ≠ w ∧ x ≠ y)) ↔ (x = w ∨ y = w ∨ x = y) := by
  tauto

/-- The nodes field vetoes a match exactly when neither side is `0` and the
sides differ. -/
theorem not_veto_int_iff (x y : Int) :
    (¬ (x ≠ 0 ∧ y ≠ 0 ∧ x ≠ y)) ↔ (x = 0 ∨ y = 0 ∨ x = y) := by
  tauto

/-- The per-field match condition is symmetric in the two sides. -/
theorem tri_symm {α : Sort _} {w x y : α} :
    (x = w ∨ y = w ∨ x = y) → (y = w ∨ x = w ∨ y = x) := by
  rintro (h | h | h)
  · exact Or.inr (Or.inl h)
  · exact Or.inl h
  · exact Or.inr (Or.inr h.symm)

/-- Field-by-field characterization of `Criteria.Matches`. -/
theorem matches_eq_true_iff (a b : Criteria) :
    a.Matches b = true ↔
      (a.service = "any" ∨ b.service = "any" ∨ a.service = b.service) ∧
      (a.fabric = "any" ∨ b.fabric = "any" ∨ a.fabric = b.fabric) ∧
      (a.accelerator = "any" ∨ b.accelerator = "any" ∨ a.accelerator = b.accelerator) ∧
      (a.intent = "any" ∨ b.intent = "any" ∨ a.intent = b.intent) ∧
      (a.worker = "any" ∨ b.worker = "any" ∨ a.worker = b.worker) ∧
      (a.system = "any" ∨ b.system = "any" ∨ a.system = b.system) ∧
      (a.nodes = 0 ∨ b.nodes = 0 ∨ a.nodes = b.nodes) := by
  simp only [Criteria.Matches, if_veto_eq_true, not_veto_iff, not_veto_int_iff,
    and_true]

/-! ### Characterizing the criteria parsers

The token lists below are the spec-side enumeration of the inputs each enum
parser accepts (canonical spellings, aliases, and blank); they are compared
against the `switch` statements of `criteria.go`. -/

/-- Inputs accepted by the service parser, after normalization. -/
def serviceTokens : List String :=
  ["", "any", "self-managed", "self", "vanilla", "eks", "gke", "aks", "oke"]

/-- Inputs accepted by the fabric parser, after normalization. -/
def fabricTokens : List String := ["", "any", "efa", "ib", "infiniband"]

/-- Inputs accepted by the accelerator parser, after normalization. -/
def acceleratorTokens : List String := ["", "any", "h100", "gb200", "a100", "l40"]

/-- Inputs accepted by the intent parser, after normalization. -/
def intentTokens : List String := ["", "any", "training", "inference"]

/-- Inputs accepted by the OS parser, after normalization. -/
def osTokens : List String :=
  ["", "any", "ubuntu", "rhel", "cos", "amazonlinux", "al2", "al2023"]

theorem except_pure_eq_ok {ε α : Type} (a : α) :
    (pure a : Except ε α) = Except.ok a := rfl

theorem except_bind_ok {ε α β : Type} (a : α) (f : α → Except ε β) :
    (Except.ok a >>= f) = f a := rfl

theorem except_bind_error {ε α β : Type} (e : ε) (f : α → Except ε β) :
    ((Except.error e : Except ε α) >>= f) = Except.error e := rfl

theorem except_isOk_ok {ε α : Type} (a : α) :
    (Except.ok a : Except ε α).isOk = true := rfl

theorem except_isOk_error {ε α : Type} (e : ε) :
    (Except.error e : Except ε α).isOk = false := rfl

theorem parseServiceType_isOk_iff (s : String) :
    (ParseCriteriaServiceType s).isOk = true ↔ normToken s ∈ serviceTokens := by
  simp only [ParseCriteriaServiceType, serviceTokens]
  repeat' split
  all_goals
    simp_all [except_isOk_ok, except_isOk_error, List.mem_cons]
  all_goals tauto

theorem parseFabricType_isOk_iff (s : String) :
    (ParseCriteriaFabricType s).isOk = true ↔ normToken s ∈ fabricTokens := by
  simp only [ParseCriteriaFabricType, fabricTokens]
  repeat' split
  all_goals
    simp_all [except_isOk_ok, except_isOk_error, List.mem_cons]
  all_goals tauto

theorem parseAcceleratorType_isOk_iff (s : String) :
    (ParseCriteriaAcceleratorType s).isOk = true ↔
      normToken s ∈ acceleratorTokens := by
  simp only [ParseCriteriaAcceleratorType, acceleratorTokens]
  repeat' split
  all_goals
    simp_all [except_isOk_ok, except_isOk_error, List.mem_cons]
  all_goals tauto

theorem parseIntentType_isOk_iff (s : String) :
    (ParseCriteriaIntentType s).isOk = true ↔ normToken s ∈ intentTokens := by
  simp only [ParseCriteriaIntentType, intentTokens]
  repeat' split
  all_goals
    simp_all [except_isOk_ok, except_isOk_error, List.mem_cons]
  all_goals tauto

theorem parseOSType_isOk_iff (s : String) :
    (ParseCriteriaOSType s).isOk = true ↔ normToken s ∈ osTokens := by
  simp only [ParseCriteriaOSType, osTokens]
  repeat' split
  all_goals
    simp_all [except_isOk_ok, except_isOk_error, List.mem_cons]
  all_goals tauto

/-- An enum parameter block succeeds iff its parameter is absent or its
parser accepts the value. -/
theorem enum_block_isOk (p : String) (q : Except String String) (c : Criteria)
    (g : String → Criteria) :
    ((if p = "" then pure c
      else do
        let x ← q
        pure (g x) : Except String Criteria)).isOk = ((p = "") || q.isOk) := by
  split
  · simp_all [except_pure_eq_ok, except_isOk_ok]
  · cases q <;>
      simp_all [except_bind_ok, except_bind_error, except_pure_eq_ok,
        except_isOk_ok, except_isOk_error]

/-- A normalized token of an absent parameter is the empty string, which
every token list contains. -/
theorem normToken_empty : normToken "" = "" := by decide

theorem parseServiceParam_isOk_iff (v : Values) (c : Criteria) :
    (parseServiceParam v c).isOk = true ↔
      normToken (valuesGet v "service") ∈ serviceTokens := by
  rw [parseServiceParam, enum_block_isOk]
  by_cases h : valuesGet v "service" = "" <;>
    simp [h, parseServiceType_isOk_iff, normToken_empty, serviceTokens]

theorem parseFabricParam_isOk_iff (v : Values) (c : Criteria) :
    (parseFabricParam v c).isOk = true ↔
      normToken (valuesGet v "fabric") ∈ fabricTokens := by
  rw [parseFabricParam, enum_block_isOk]
  by_cases h : valuesGet v "fabric" = "" <;>
    simp [h, parseFabricType_isOk_iff, normToken_empty, fabricTokens]

theorem parseAccelParam_isOk_iff (v : Values) (c : Criteria) :
    (parseAccelParam v c).isOk = true ↔
      normToken (accelParam v) ∈ acceleratorTokens := by
  rw [parseAccelParam, enum_block_isOk]
  by_cases h : accelParam v = "" <;>
    simp [h, parseAcceleratorType_isOk_iff, normToken_empty, acceleratorTokens]

theorem parseIntentParam_isOk_iff (v : Values) (c : Criteria) :
    (parseIntentParam v c).isOk = true ↔
      normToken (valuesGet v "intent") ∈ intentTokens := by
  rw [parseIntentParam, enum_block_isOk]
  by_cases h : valuesGet v "intent" = "" <;>
    simp [h, parseIntentType_isOk_iff, normToken_empty, intentTokens]

theorem parseWorkerParam_isOk_iff (v : Values) (c : Criteria) :
    (parseWorkerParam v c).isOk = true ↔
      normToken (valuesGet v "worker") ∈ osTokens := by
  rw [parseWorkerParam, enum_block_isOk]
  by_cases h : valuesGet v "worker" = "" <;>
    simp [h, parseOSType_isOk_iff, normToken_empty, osTokens]

theorem parseSystemParam_isOk_iff (v : Values) (c : Criteria) :
    (parseSystemParam v c).isOk = true ↔
      normToken (valuesGet v "system") ∈ osTokens := by
  rw [parseSystemParam, enum_block_isOk]
  by_cases h : valuesGet v "system" = "" <;>
    simp [h, parseOSType_isOk_iff, normToken_empty, osTokens]

theorem parseNodesParam_isOk_iff (v : Values) (c : Criteria) :
    (parseNodesParam v c).isOk = true ↔
      (valuesGet v "nodes" = "" ∨
        ∃ n, sscanfInt (valuesGet v "nodes") = some n ∧ 0 ≤ n) := by
  rw [parseNodesParam]
  split
  · rename_i hemp
    simp [except_pure_eq_ok, except_isOk_ok, hemp]
  · rename_i hemp
    rcases hs : sscanfInt (valuesGet v "nodes") with _ | n
    · simp [except_isOk_error, hemp]
    · by_cases hneg : n < 0
      · have h0 : ¬ (0 ≤ n) := by omega
        simp [hneg, except_isOk_error, hemp, h0]
      · have h0 : 0 ≤ n := by omega
        simp [hneg, except_pure_eq_ok, except_isOk_ok, hemp, h0]

/-- `ParseCriteriaFromValues` fails exactly when one of the seven blocks
rejects its parameter. -/
theorem parse_isOk_false_iff (v : Values) :
    (ParseCriteriaFromValues v).isOk = false ↔
      (normToken (valuesGet v "service") ∉ serviceTokens ∨
       normToken (valuesGet v "fabric") ∉ fabricTokens ∨
       normToken (accelParam v) ∉ acceleratorTokens ∨
       normToken (valuesGet v "intent") ∉ intentTokens ∨
       normToken (valuesGet v "worker") ∉ osTokens ∨
       normToken (valuesGet v "system") ∉ osTokens ∨
       (valuesGet v "nodes" ≠ "" ∧
         (sscanfInt (valuesGet v "nodes") = none ∨
           ∃ n, sscanfInt (valuesGet v "nodes") = some n ∧ n < 0))) := by
  rw [ParseCriteriaFromValues]
  rcases h1 : parseServiceParam v NewCriteria with e1 | c1
  · have hm := parseServiceParam_isOk_iff v NewCriteria
    rw [h1, except_isOk_error] at hm
    simp only [Bool.false_eq_true, false_iff] at hm
    rw [except_bind_error, except_isOk_error]
    simp [hm]
  · have hm1 := (parseServiceParam_isOk_iff v NewCriteria).mp (by rw [h1]; rfl)
    rw [except_bind_ok]
    rcases h2 : parseFabricParam v c1 with e2 | c2
    · have hm := parseFabricParam_isOk_iff v c1
      rw [h2, except_isOk_error] at hm
      simp only [Bool.false_eq_true, false_iff] at hm
      rw [except_bind_error, except_isOk_error]
      simp [hm]
    · have hm2 := (parseFabricParam_isOk_iff v c1).mp (by rw [h2]; rfl)
      rw [except_bind_ok]
      rcases h3 : parseAccelParam v c2 with e3 | c3
      · have hm := parseAccelParam_isOk_iff v c2
        rw [h3, except_isOk_error] at hm
        simp only [Bool.false_eq_true, false_iff] at hm
        rw [except_bind_error, except_isOk_error]
        simp [hm]
      · have hm3 := (parseAccelParam_isOk_iff v c2).mp (by rw [h3]; rfl)
        rw [except_bind_ok]
        rcases h4 : parseIntentParam v c3 with e4 | c4
        · have hm := parseIntentParam_isOk_iff v c3
          rw [h4, except_isOk_error] at hm
          simp only [Bool.false_eq_true, false_iff] at hm
          rw [except_bind_error, except_isOk_error]
          simp [hm]
        · have hm4 := (parseIntentParam_isOk_iff v c3).mp (by rw [h4]; rfl)
          rw [except_bind_ok]
          rcases h5 : parseWorkerParam v c4 with e5 | c5
          · have hm := parseWorkerParam_isOk_iff v c4
            rw [h5, except_isOk_error] at hm
            simp only [Bool.false_eq_true, false_iff] at hm
            rw [except_bind_error, except_isOk_error]
            simp [hm]
          · have hm5 := (parseWorkerParam_isOk_iff v c4).mp (by rw [h5]; rfl)
            rw [except_bind_ok]
            rcases h6 : parseSystemParam v c5 with e6 | c6
            · have hm := parseSystemParam_isOk_iff v c5
              rw [h6, except_isOk_error] at hm
              simp only [Bool.false_eq_true, false_iff] at hm
              rw [except_bind_error, except_isOk_error]
              simp [hm]
            · have hm6 := (parseSystemParam_isOk_iff v c5).mp (by rw [h6]; rfl)
              rw [except_bind_ok]
              rcases h7 : parseNodesParam v c6 with e7 | c7
              · have hm := parseNodesParam_isOk_iff v c6
                rw [h7, except_isOk_error] at hm
                simp only [Bool.false_eq_true, false_iff] at hm
                push_neg at hm
                rcases hm with ⟨hne, hnot⟩
                rw [except_bind_error, except_isOk_error]
                simp only [eq_self_iff_true, true_iff]
                refine Or.inr (Or.inr (Or.inr (Or.inr (Or.inr (Or.inr
                  ⟨hne, ?_⟩)))))
                rcases hs : sscanfInt (valuesGet v "nodes") with _ | n
                · exact Or.inl rfl
                · exact Or.inr ⟨n, rfl, hnot n hs⟩
              · have hm7 := (parseNodesParam_isOk_iff v c6).mp (by rw [h7]; rfl)
                rw [except_bind_ok, except_pure_eq_ok, except_isOk_ok]
                simp only [Bool.true_eq_false, false_iff]
                intro hcon
                rcases hcon with h | h | h | h | h | h | ⟨hne, h⟩
                · exact h hm1
                · exact h hm2
                · exact h hm3
                · exact h hm4
                · exact h hm5
                · exact h hm6
                · rcases hm7 with hemp | ⟨n, hn, hge⟩
                  · exact hne hemp
                  · rcases h with hnone | ⟨m, hm', hlt⟩
                    · rw [hn] at hnone
                      cases hnone
                    · rw [hn] at hm'
                      cases hm'
                      omega

/-! ### Blank parameters -/

theorem parseServiceParam_blank (v : Values) (c : Criteria)
    (h : normToken (valuesGet v "service") = "") (hc : c.service = "any") :
    parseServiceParam v c = Except.ok c := by
  rw [parseServiceParam]
  split
  · rfl
  · rw [ParseCriteriaServiceType]
    simp only [h, if_pos (Or.inl rfl), except_bind_ok, except_pure_eq_ok]
    cases c
    simp_all [except_bind_ok]

theorem parseFabricParam_blank (v : Values) (c : Criteria)
    (h : normToken (valuesGet v "fabric") = "") (hc : c.fabric = "any") :
    parseFabricParam v c = Except.ok c := by
  rw [parseFabricParam]
  split
  · rfl
  · rw [ParseCriteriaFabricType]
    simp only [h, if_pos (Or.inl rfl), except_bind_ok, except_pure_eq_ok]
    cases c
    simp_all [except_bind_ok]

theorem parseAccelParam_blank (v : Values) (c : Criteria)
    (h : normToken (accelParam v) = "") (hc : c.accelerator = "any") :
    parseAccelParam v c = Except.ok c := by
  rw [parseAccelParam]
  split
  · rfl
  · rw [ParseCriteriaAcceleratorType]
    simp only [h, if_pos (Or.inl rfl), except_bind_ok, except_pure_eq_ok]
    cases c
    simp_all [except_bind_ok]

theorem parseIntentParam_blank (v : Values) (c : Criteria)
    (h : normToken (valuesGet v "intent") = "") (hc : c.intent = "any") :
    parseIntentParam v c = Except.ok c := by
  rw [parseIntentParam]
  split
  · rfl
  · rw [ParseCriteriaIntentType]
    simp only [h, if_pos (Or.inl rfl), except_bind_ok, except_pure_eq_ok]
    cases c
    simp_all [except_bind_ok]

theorem parseWorkerParam_blank (v : Values) (c : Criteria)
    (h : normToken (valuesGet v "worker") = "") (hc : c.worker = "any") :
    parseWorkerParam v c = Except.ok c := by
  rw [parseWorkerParam]
  split
  · rfl
  · rw [ParseCriteriaOSType]
    simp only [h, if_pos (Or.inl rfl), except_bind_ok, except_pure_eq_ok]
    cases c
    simp_all [except_bind_ok]

theorem parseSystemParam_blank (v : Values) (c : Criteria)
    (h : normToken (valuesGet v "system") = "") (hc : c.system = "any") :
    parseSystemParam v c = Except.ok c := by
  rw [parseSystemParam]
  split
  · rfl
  · rw [ParseCriteriaOSType]
    simp only [h, if_pos (Or.inl rfl), except_bind_ok, except_pure_eq_ok]
    cases c
    simp_all [except_bind_ok]

theorem parseNodesParam_empty (v : Values) (c : Criteria)
    (h : valuesGet v "nodes" = "") : parseNodesParam v c = Except.ok c := by
  rw [parseNodesParam, if_pos h]
  rfl

/-- When every enum parameter is blank and the nodes parameter is the empty
string, parsing succeeds with the all-wildcard criteria. -/
theorem parse_blank_ok (v : Values)
    (hs : normToken (valuesGet v "service") = "")
    (hf : normToken (valuesGet v "fabric") = "")
    (ha : normToken (accelParam v) = "")
    (hi : normToken (valuesGet v "intent") = "")
    (hw : normToken (valuesGet v "worker") = "")
    (hy : normToken (valuesGet v "system") = "")
    (hn : valuesGet v "nodes" = "") :
    ParseCriteriaFromValues v = Except.ok NewCriteria := by
  rw [ParseCriteriaFromValues,
    parseServiceParam_blank v NewCriteria hs rfl, except_bind_ok,
    parseFabricParam_blank v NewCriteria hf rfl, except_bind_ok,
    parseAccelParam_blank v NewCriteria ha rfl, except_bind_ok,
    parseIntentParam_blank v NewCriteria hi rfl, except_bind_ok,
    parseWorkerParam_blank v NewCriteria hw rfl, except_bind_ok,
    parseSystemParam_blank v NewCriteria hy rfl, except_bind_ok,
    parseNodesParam_empty v NewCriteria hn, except_bind_ok]
  rfl

/-! ### Concrete query-value assignments used in closed statements -/

/-- A query in which the only supplied parameter is `nodes`, with the blank
(single-space) value. -/
def blankNodesValues : Values := fun k => if k = "nodes" then [" "] else []

/-- A query supplying a mixed-case service and a concrete nodes count. -/
def sampleValues : Values :=
  fun k => if k = "service" then [" EKS "] else if k = "nodes" then ["3"] else []

/-- C6 (counterexample): in `blankNodesValues` the only supplied parameter is
`nodes`, whose value `" "` is blank (it normalizes to the empty string), yet
`ParseCriteriaFromValues` returns an error rather than mapping it to `0` —
refuting the claim that every blank parameter maps to the wildcard without
error. -/
theorem C6_blank_nodes_is_error :
    valuesGet blankNodesValues "nodes" = " " ∧
    normToken (valuesGet blankNodesValues "nodes") = "" ∧
    valuesGet blankNodesValues "service" = "" ∧
    valuesGet blankNodesValues "fabric" = "" ∧
    valuesGet blankNodesValues "accelerator" = "" ∧
    valuesGet blankNodesValues "gpu" = "" ∧
    valuesGet blankNodesValues "intent" = "" ∧
    valuesGet blankNodesValues "worker" = "" ∧
    valuesGet blankNodesValues "system" = "" ∧
    (ParseCriteriaFromValues blankNodesValues).isOk = false := by
  decide

/-- C6 (amended): `ParseCriteriaFromValues` returns an error iff some
supplied parameter normalizes to a token outside its parser's accepted list,
or the non-empty `nodes` value fails the `%d` scan or scans to a negative
number; and when every enum parameter is blank and `nodes` is absent or
empty, the result is the all-wildcard criteria without error.  (A blank but
non-empty `nodes` value is a scan error, not a wildcard.) -/
theorem C6_parse_error_characterization (v : Values) :
    ((ParseCriteriaFromValues v).isOk = false ↔
      (normToken (valuesGet v "service") ∉ serviceTokens ∨
       normToken (valuesGet v "fabric") ∉ fabricTokens ∨
       normToken (accelParam v) ∉ acceleratorTokens ∨
       normToken (valuesGet v "intent") ∉ intentTokens ∨
       normToken (valuesGet v "worker") ∉ osTokens ∨
       normToken (valuesGet v "system") ∉ osTokens ∨
       (valuesGet v "nodes" ≠ "" ∧
         (sscanfInt (valuesGet v "nodes") = none ∨
           ∃ n, sscanfInt (valuesGet v "nodes") = some n ∧ n < 0)))) ∧
    ((normToken (valuesGet v "service") = "" ∧
      normToken (valuesGet v "fabric") = "" ∧
      normToken (accelParam v) = "" ∧
      normToken (valuesGet v "intent") = "" ∧
      normToken (valuesGet v "worker") = "" ∧
      normToken (valuesGet v "system") = "" ∧
      valuesGet v "nodes" = "") →
      ParseCriteriaFromValues v = Except.ok NewCriteria) := by
  refine ⟨parse_isOk_false_iff v, ?_⟩
  rintro ⟨hs, hf, ha, hi, hw, hy, hn⟩
  exact parse_blank_ok v hs hf ha hi hw hy hn

/-- C6 (witness): the amended characterization applied to two concrete
queries: `sampleValues` (service `" EKS "`, nodes `"3"`) parses without
error, and the all-absent query parses to the all-wildcard criteria. -/
theorem C6_parse_error_characterization_witness :
    (ParseCriteriaFromValues sampleValues).isOk = true ∧
    ParseCriteriaFromValues (fun _ => []) = Except.ok NewCriteria := by
  constructor
  · have h := (C6_parse_error_characterization sampleValues).1
    rcases hb : (ParseCriteriaFromValues sampleValues).isOk with _ | _
    · exfalso
      have hcon := h.mp hb
      revert hcon
      decide
    · rfl
  · exact (C6_parse_error_characterization (fun _ => [])).2 (by decide)

/-! ### Component ordering (`orderComponentsByDeployment`)

The same function appears verbatim in the `flux`, `argocd` and `script`
deployers.  It sorts a component list by each component's position in
`deploymentOrder` using a double loop that swaps `result[i], result[j]`
whenever `result[j]` must come before `result[i]`. -/

/-- `recipe.ComponentRef`, restricted to the fields the deployers read
(`Name`, `Source`, `Version`); the remaining Go fields are never consulted by
the functions verified here. -/
structure ComponentRef where
  name : String
  source : String
  version : String
  deriving DecidableEq, Repr

instance : Inhabited ComponentRef := ⟨⟨"", "", ""⟩⟩

/-- The `posMap` built by the Go loop `for i, name := range order`: later
occurrences of a duplicate name overwrite earlier ones. -/
def posMapGo (order : List String) : String → Option Nat :=
  order.enum.foldl (fun m p => fun s => if s = p.2 then some p.1 else m s)
    (fun _ => none)

/-- The sort key of a component: its position in the order, if any. -/
def componentKey (order : List String) (c : ComponentRef) : Option Nat :=
  posMapGo order c.name

/-- The swap condition of the double loop, as a strict comparison on keys:
`deployLt kj ki` is true exactly when the Go code swaps `result[i]` and
`result[j]` (component in order before component not in order; both in order
ordered by position). -/
def deployLt (kj ki : Option Nat) : Bool :=
  match kj, ki with
  | some _, none => true
  | some pj, some pi => decide (pj < pi)
  | none, _ => false

/-- Go's parallel assignment `result[i], result[j] = result[j], result[i]`. -/
def swapList {α : Type} [Inhabited α] (l : List α) (i j : Nat) : List α :=
  (l.set i (l.getD j default)).set j (l.getD i default)

theorem swapList_length {α : Type} [Inhabited α] (l : List α) (i j : Nat) :
    (swapList l i j).length = l.length := by
  simp [swapList]

/-- The inner loop `for j := i + 1; j < len(result); j++`. -/
def innerLoopGo {α : Type} [Inhabited α] (key : α → Option Nat)
    (l : List α) (i j : Nat) : List α :=
  if h : j < l.length then
    if deployLt (key (l.getD j default)) (key (l.getD i default)) then
      innerLoopGo key (swapList l i j) i (j + 1)
    else
      innerLoopGo key l i (j + 1)
  else l
termination_by l.length - j
decreasing_by
  · rw [swapList_length]
    omega
  · omega

theorem innerLoopGo_length {α : Type} [Inhabited α] (key : α → Option Nat)
    (l : List α) (i j : Nat) :
    (innerLoopGo key l i j).length = l.length := by
  induction l, i, j using innerLoopGo.induct key with
  | case1 l i j h hlt ih =>
    rw [innerLoopGo, dif_pos h, if_pos hlt, ih, swapList_length]
  | case2 l i j h hlt ih =>
    rw [innerLoopGo, dif_pos h, if_neg hlt]
    exact ih
  | case3 l i j h =>
    rw [innerLoopGo, dif_neg h]

/-- The outer loop `for i := 0; i < len(result)-1; i++`. -/
def outerLoopGo {α : Type} [Inhabited α] (key : α → Option Nat)
    (l : List α) (i : Nat) : List α :=
  if h : i < l.length - 1 then
    outerLoopGo key (innerLoopGo key l i (i + 1)) (i + 1)
  else l
termination_by l.length - i
decreasing_by
  rw [innerLoopGo_length]
  omega

/-- `orderComponentsByDeployment` from `flux.go` 162-193 (identical copies in
`argocd.go` 155-186 and `script.go` 87-118): returns the components unchanged
when the order is empty, otherwise sorts a copy with the swap-based double
loop keyed by position in the order. -/
def orderComponentsByDeployment (components : List ComponentRef)
    (order : List String) : List ComponentRef :=
  if order.length = 0 then components
  else outerLoopGo (componentKey order) components 0

/-! #### A recursion-friendly form of the double loop

One pass of the inner loop selects the minimal element under `deployLt` and
leaves the others in the order the swaps produce; the outer loop repeats on
the remainder.  `selectOne`/`selectSortFuel` capture this recursively and are
proved equal to the Go loops below. -/

/-- One inner-loop pass, carrying the current `result[i]` value `c` through
the scanned suffix: on a swap the scanned element becomes current and the old
current value takes its place. -/
def selectOne {α : Type} (key : α → Option Nat) (c : α) :
    List α → α × List α
  | [] => (c, [])
  | x :: xs =>
    if deployLt (key x) (key c) then
      ((selectOne key x xs).1, c :: (selectOne key x xs).2)
    else
      ((selectOne key c xs).1, x :: (selectOne key c xs).2)

theorem selectOne_length {α : Type} (key : α → Option Nat) (c : α)
    (xs : List α) : (selectOne key c xs).2.length = xs.length := by
  induction xs generalizing c with
  | nil => rfl
  | cons x xs ih =>
    rw [selectOne]
    split <;> simp [ih]

theorem selectOne_perm {α : Type} (key : α → Option Nat) (c : α)
    (xs : List α) :
    List.Perm ((selectOne key c xs).1 :: (selectOne key c xs).2) (c :: xs) := by
  induction xs generalizing c with
  | nil => exact List.Perm.refl _
  | cons x xs ih =>
    rw [selectOne]
    split
    · exact (List.Perm.swap c (selectOne key x xs).1 _).trans ((ih x).cons c)
    · exact ((List.Perm.swap x (selectOne key c xs).1 _).trans
        ((ih c).cons x)).trans (List.Perm.swap c x xs)

/-- The outer loop as structural recursion on a fuel bound. -/
def selectSortFuel {α : Type} (key : α → Option Nat) :
    Nat → List α → List α
  | 0, l => l
  | _ + 1, [] => []
  | fuel + 1, x :: xs =>
    (selectOne key x xs).1 ::
      selectSortFuel key fuel (selectOne key x xs).2

theorem selectSortFuel_perm {α : Type} (key : α → Option Nat)
    (fuel : Nat) (l : List α) (h : l.length ≤ fuel) :
    List.Perm (selectSortFuel key fuel l) l := by
  induction fuel generalizing l with
  | zero => exact List.Perm.refl _
  | succ n ih =>
    rcases l with _ | ⟨x, xs⟩
    · exact List.Perm.refl _
    · refine ((ih _ ?_).cons _).trans (selectOne_perm key x xs)
      rw [selectOne_length]
      simpa using h

/-! #### Facts about the key comparison -/

theorem deployLt_irrefl (k : Option Nat) : deployLt k k = false := by
  rcases k with _ | p <;> simp [deployLt]

theorem deployLt_trans {a b c : Option Nat} (h1 : deployLt a b = true)
    (h2 : deployLt b c = true) : deployLt a c = true := by
  rcases a with _ | pa <;> rcases b with _ | pb <;> rcases c with _ | pc <;>
    simp_all [deployLt] <;> omega

theorem deployLt_cotrans {a b : Option Nat} (c : Option Nat)
    (h : deployLt a b = true) :
    deployLt a c = true ∨ deployLt c b = true := by
  rcases a with _ | pa <;> rcases b with _ | pb <;> rcases c with _ | pc <;>
    simp_all [deployLt] <;> omega

/-- The value selected by one inner-loop pass is minimal: no discarded
element, nor the incoming current value, compares strictly below it. -/
theorem selectOne_min {α : Type} (key : α → Option Nat) (c : α)
    (xs : List α) :
    deployLt (key c) (key (selectOne key c xs).1) = false ∧
    ∀ y ∈ (selectOne key c xs).2,
      deployLt (key y) (key (selectOne key c xs).1) = false := by
  induction xs generalizing c with
  | nil => exact ⟨deployLt_irrefl _, by simp [selectOne]⟩
  | cons x xs ih =>
    rw [selectOne]
    split
    · rename_i hlt
      obtain ⟨ha, hb⟩ := ih x
      refine ⟨?_, ?_⟩
      · by_contra hcon
        rw [Bool.not_eq_false] at hcon
        exact absurd (deployLt_trans hlt hcon) (by simp [ha])
      · intro y hy
        rcases List.mem_cons.mp hy with rfl | hy
        · by_contra hcon
          rw [Bool.not_eq_false] at hcon
          exact absurd (deployLt_trans hlt hcon) (by simp [ha])
        · exact hb y hy
    · rename_i hlt
      obtain ⟨ha, hb⟩ := ih c
      refine ⟨ha, ?_⟩
      intro y hy
      rcases List.mem_cons.mp hy with rfl | hy
      · by_contra hcon
        rw [Bool.not_eq_false] at hcon
        rcases deployLt_cotrans (key c) hcon with h1 | h1
        · exact hlt h1
        · simp [h1] at ha
      · exact hb y hy

/-! #### The Go double loop equals the recursive selection sort -/

theorem getD_append_cons {α : Type} (pre : List α) (c : α) (rest : List α)
    (d : α) : (pre ++ c :: rest).getD pre.length d = c := by
  induction pre with
  | nil => rfl
  | cons a pre ih => simpa using ih

theorem set_append_cons {α : Type} (pre : List α) (c x : α) (rest : List α) :
    (pre ++ c :: rest).set pre.length x = pre ++ x :: rest := by
  induction pre with
  | nil => rfl
  | cons a pre ih => simp [List.set, ih]

theorem length_append_cons {α : Type} (pre mid : List α) (c : α) :
    (pre ++ c :: mid).length = pre.length + 1 + mid.length := by
  simp
  omega

/-- Swapping positions `i = |pre|` and `j = |pre| + 1 + |mid|` exchanges the
elements at those positions. -/
theorem swapList_decomp {α : Type} [Inhabited α] (pre mid suffix : List α)
    (c x : α) :
    swapList (pre ++ c :: (mid ++ x :: suffix)) pre.length
      (pre.length + 1 + mid.length) = pre ++ x :: (mid ++ c :: suffix) := by
  have hgj : (pre ++ c :: (mid ++ x :: suffix)).getD
      (pre.length + 1 + mid.length) default = x := by
    have hassoc : pre ++ c :: (mid ++ x :: suffix) =
        (pre ++ c :: mid) ++ x :: suffix := by simp
    rw [hassoc, ← length_append_cons pre mid c, getD_append_cons]
  have hgi : (pre ++ c :: (mid ++ x :: suffix)).getD pre.length default = c :=
    getD_append_cons pre c (mid ++ x :: suffix) default
  rw [swapList, hgj, hgi, set_append_cons]
  have hassoc2 : pre ++ x :: (mid ++ x :: suffix) =
      (pre ++ x :: mid) ++ x :: suffix := by simp
  rw [hassoc2, ← length_append_cons pre mid x, length_append_cons,
    ← length_append_cons pre mid x, set_append_cons]
  simp

/-- One pass of the Go inner loop, starting at `i = |pre|` with the scan at
`j = |pre| + 1 + |mid|`, performs exactly `selectOne` on the unscanned
suffix. -/
theorem innerLoopGo_spec {α : Type} [Inhabited α] (key : α → Option Nat)
    (pre : List α) (c : α) (mid suffix : List α) :
    innerLoopGo key (pre ++ c :: (mid ++ suffix)) pre.length
      (pre.length + 1 + mid.length) =
      pre ++ (selectOne key c suffix).1 ::
        (mid ++ (selectOne key c suffix).2) := by
  induction suffix generalizing mid c with
  | nil =>
    rw [innerLoopGo, dif_neg (by simp; omega)]
    simp [selectOne]
  | cons x xs ih =>
    have hj : pre.length + 1 + mid.length <
        (pre ++ c :: (mid ++ x :: xs)).length := by
      simp
      omega
    have hgj : (pre ++ c :: (mid ++ x :: xs)).getD
        (pre.length + 1 + mid.length) default = x := by
      have hassoc : pre ++ c :: (mid ++ x :: xs) =
          (pre ++ c :: mid) ++ x :: xs := by simp
      rw [hassoc, ← length_append_cons pre mid c, getD_append_cons]
    have hgi : (pre ++ c :: (mid ++ x :: xs)).getD pre.length default = c :=
      getD_append_cons pre c (mid ++ x :: xs) default
    rw [innerLoopGo, dif_pos hj, hgj, hgi]
    by_cases hlt : deployLt (key x) (key c) = true
    · rw [if_pos hlt, swapList_decomp]
      have hrec := ih x (mid ++ [c])
      have hlist : pre ++ x :: ((mid ++ [c]) ++ xs) =
          pre ++ x :: (mid ++ c :: xs) := by simp
      have hidx : pre.length + 1 + (mid ++ [c]).length =
          pre.length + 1 + mid.length + 1 := by
        simp
        omega
      rw [hlist, hidx] at hrec
      rw [hrec, selectOne, if_pos hlt]
      simp
    · rw [if_neg hlt]
      have hrec := ih c (mid ++ [x])
      have hlist : pre ++ c :: ((mid ++ [x]) ++ xs) =
          pre ++ c :: (mid ++ x :: xs) := by simp
      have hidx : pre.length + 1 + (mid ++ [x]).length =
          pre.length + 1 + mid.length + 1 := by
        simp
        omega
      rw [hlist, hidx] at hrec
      rw [hrec, selectOne, if_neg hlt]
      simp

/-- The Go outer loop, started at `i = |pre|` on `pre ++ rest` with `pre`
already in final position, performs the fuel-bounded selection sort of
`rest`. -/
theorem outerLoopGo_spec {α : Type} [Inhabited α] (key : α → Option Nat)
    (pre rest : List α) :
    outerLoopGo key (pre ++ rest) pre.length =
      pre ++ selectSortFuel key rest.length rest := by
  suffices h : ∀ (n : Nat) (pre rest : List α), rest.length = n →
      outerLoopGo key (pre ++ rest) pre.length =
        pre ++ selectSortFuel key rest.length rest by
    exact h rest.length pre rest rfl
  intro n
  induction n with
  | zero =>
    intro pre rest hn
    have : rest = [] := List.length_eq_zero.mp hn
    subst this
    rw [outerLoopGo, dif_neg (by simp)]
    rfl
  | succ n ih =>
    intro pre rest hn
    rcases rest with _ | ⟨x, xs⟩
    · simp at hn
    · rcases xs with _ | ⟨y, ys⟩
      · rw [outerLoopGo, dif_neg (by simp)]
        rfl
      · rw [outerLoopGo, dif_pos (by simp)]
        have hs := innerLoopGo_spec key pre x [] (y :: ys)
        simp only [List.nil_append, List.append_nil, List.length_nil,
          Nat.add_zero] at hs
        rw [hs]
        have hlen2 : (selectOne key x (y :: ys)).2.length = n := by
          rw [selectOne_length]
          simpa using hn
        have hrec := ih (pre ++ [(selectOne key x (y :: ys)).1])
          (selectOne key x (y :: ys)).2 hlen2
        simp only [List.append_assoc, List.singleton_append,
          List.length_append, List.length_singleton] at hrec
        rw [hlen2] at hrec
        rw [hrec, hn, selectSortFuel]

/-- The fuel-bounded sort produces a list in which no later element compares
strictly below an earlier one. -/
theorem selectSortFuel_sorted {α : Type} (key : α → Option Nat)
    (fuel : Nat) (l : List α) (h : l.length ≤ fuel) :
    (selectSortFuel key fuel l).Pairwise
      (fun a b => deployLt (key b) (key a) = false) := by
  induction fuel generalizing l with
  | zero =>
    have : l = [] := by
      rcases l with _ | _
      · rfl
      · simp at h
    subst this
    exact List.Pairwise.nil
  | succ n ih =>
    rcases l with _ | ⟨x, xs⟩
    · exact List.Pairwise.nil
    · rw [selectSortFuel]
      have hlen : (selectOne key x xs).2.length ≤ n := by
        rw [selectOne_length]
        simpa using h
      refine List.Pairwise.cons ?_ (ih _ hlen)
      intro z hz
      have hz2 : z ∈ (selectOne key x xs).2 :=
        (selectSortFuel_perm key n _ hlen).mem_iff.mp hz
      exact (selectOne_min key x xs).2 z hz2

/-- For a non-empty order, the Go double loop computes the recursive
selection sort. -/
theorem orderComponents_eq_selectSortFuel (components : List ComponentRef)
    (order : List String) (h : order.length ≠ 0) :
    orderComponentsByDeployment components order =
      selectSortFuel (componentKey order) components.length components := by
  rw [orderComponentsByDeployment, if_neg h]
  have hspec := outerLoopGo_spec (componentKey order) [] components
  simpa using hspec

/-- `orderComponentsByDeployment` permutes its input. -/
theorem orderComponents_perm (components : List ComponentRef)
    (order : List String) :
    List.Perm (orderComponentsByDeployment components order) components := by
  by_cases h : order.length = 0
  · rw [orderComponentsByDeployment, if_pos h]
  · rw [orderComponents_eq_selectSortFuel components order h]
    exact selectSortFuel_perm _ _ _ le_rfl

/-- The output of `orderComponentsByDeployment` is sorted by key: no later
element has a strictly smaller key than an earlier one. -/
theorem orderComponents_sorted (components : List ComponentRef)
    (order : List String) (h : order.length ≠ 0) :
    (orderComponentsByDeployment components order).Pairwise
      (fun a b =>
        deployLt (componentKey order b) (componentKey order a) = false) := by
  rw [orderComponents_eq_selectSortFuel components order h]
  exact selectSortFuel_sorted _ _ _ le_rfl

/-! #### Characterizing the position map -/

theorem posMapGo_snoc (l : List String) (x s : String) :
    posMapGo (l ++ [x]) s = if s = x then some l.length else posMapGo l s := by
  simp only [posMapGo, List.enum_append, List.foldl_append]
  rfl

theorem posMapGo_eq_none (order : List String) (s : String) (h : s ∉ order) :
    posMapGo order s = none := by
  induction order using List.reverseRecOn with
  | nil => rfl
  | append_singleton l x ih =>
    have hx : s ≠ x ∧ s ∉ l := by
      constructor
      · intro he
        exact h (by simp [he])
      · intro hm
        exact h (by simp [hm])
    rw [posMapGo_snoc, if_neg hx.1]
    exact ih hx.2

theorem posMapGo_eq_indexOf (order : List String) (s : String)
    (hnd : order.Nodup) (h : s ∈ order) :
    posMapGo order s = some (List.indexOf s order) := by
  induction order using List.reverseRecOn with
  | nil => cases h
  | append_singleton l x ih =>
    have hnd2 : l.Nodup ∧ x ∉ l := by
      rw [List.nodup_append] at hnd
      refine ⟨hnd.1, fun hm => ?_⟩
      exact hnd.2.2 hm (by simp)
    rcases List.mem_append.mp h with hm | hm
    · have hsx : s ≠ x := fun he => hnd2.2 (he ▸ hm)
      rw [posMapGo_snoc, if_neg hsx, ih hnd2.1 hm,
        List.indexOf_append_of_mem hm]
    · have hsx : s = x := by simpa using hm
      subst hsx
      rw [posMapGo_snoc, if_pos rfl, List.indexOf_append_of_not_mem hnd2.2]
      simp

/-! ### Flux deployer (`flux.go` `Deployer.Generate`)

`Generate` renders one `HelmReleaseData` per component, walking
`orderComponentsByDeployment` and carrying `previousName` /
`previousNamespace`; the data value determines the `helmrelease.yaml` file
(an empty `DependsOnName` renders no `dependsOn` block). -/

/-- `internal.GetNamespaceForComponent`: the closed component → namespace
table shared by all deployers; unknown components map to `default`. -/
def GetNamespaceForComponent (componentName : String) : String :=
  if componentName = "gpu-operator" then "gpu-operator"
  else if componentName = "network-operator" then "network-operator"
  else if componentName = "cert-manager" then "cert-manager"
  else if componentName = "nvsentinel" then "nvsentinel"
  else if componentName = "skyhook" then "skyhook"
  else "default"

/-- `HelmReleaseData` from `flux.go` (the Go field `Namespace` is embedded as
`nspace`). -/
structure HelmReleaseData where
  nspace : String
  name : String
  source : String
  version : String
  dependsOnName : String
  dependsOnNamespace : String
  deriving DecidableEq, Repr

/-- The per-component loop of the Flux `Generate` (`flux.go` 89-123):
`prevName`/`prevNs` carry the Go variables `previousName` and
`previousNamespace`, and the dependency fields are set only when a previous
component exists. -/
def fluxHelmReleaseLoop (prevName prevNs : String) :
    List ComponentRef → List HelmReleaseData
  | [] => []
  | r :: rest =>
    { nspace := GetNamespaceForComponent r.name, name := r.name,
      source := r.source, version := r.version,
      dependsOnName := if prevName ≠ "" then prevName else "",
      dependsOnNamespace := if prevName ≠ "" then prevNs else "" } ::
      fluxHelmReleaseLoop r.name (GetNamespaceForComponent r.name) rest

/-- The sequence of `HelmReleaseData` values the Flux `Generate` renders (in
file-emission order, one per component of the ordered component list). -/
def fluxHelmReleaseDatas (refs : List ComponentRef) (order : List String) :
    List HelmReleaseData :=
  fluxHelmReleaseLoop "" "" (orderComponentsByDeployment refs order)

theorem fluxLoop_length (p q : String) (l : List ComponentRef) :
    (fluxHelmReleaseLoop p q l).length = l.length := by
  induction l generalizing p q with
  | nil => rfl
  | cons r rest ih => simp [fluxHelmReleaseLoop, ih]

theorem fluxLoop_names (p q : String) (l : List ComponentRef) (i : Nat) :
    ((fluxHelmReleaseLoop p q l)[i]?).map (fun d => d.name) =
      (l[i]?).map (fun r => r.name) := by
  induction l generalizing p q i with
  | nil => rfl
  | cons r rest ih =>
    rcases i with _ | k
    · simp [fluxHelmReleaseLoop]
    · simpa [fluxHelmReleaseLoop] using ih r.name _ k

theorem fluxLoop_first (p q : String) (l : List ComponentRef) (hp : p = "")
    (hl : l ≠ []) :
    ((fluxHelmReleaseLoop p q l)[0]?).map (fun d => d.dependsOnName) =
      some "" := by
  rcases l with _ | ⟨r, rest⟩
  · exact absurd rfl hl
  · subst hp
    simp [fluxHelmReleaseLoop]

theorem fluxLoop_chain (l : List ComponentRef)
    (hn : ∀ r ∈ l, r.name ≠ "") (p q : String) (i : Nat)
    (hi : i + 1 < l.length) :
    ((fluxHelmReleaseLoop p q l)[i + 1]?).map (fun d => d.dependsOnName) =
      (l[i]?).map (fun r => r.name) := by
  induction l generalizing p q i with
  | nil => simp at hi
  | cons r rest ih =>
    rcases i with _ | k
    · rcases rest with _ | ⟨r2, rest2⟩
      · simp at hi
      · have hr : r.name ≠ "" := hn r (by simp)
        simp [fluxHelmReleaseLoop, hr]
    · have hk : k + 1 < rest.length := by simpa using hi
      have := ih (fun r hr => hn r (by simp [hr])) r.name
        (GetNamespaceForComponent r.name) k hk
      simpa [fluxHelmReleaseLoop] using this

/-! ### Argo-CD deployer (`argocd.go` `Deployer.Generate`)

`Generate` builds `orderMap` from `DeploymentOrder` with the same
position-map loop, orders the components, and renders one `ApplicationData`
per component whose `SyncWave` is the map lookup, defaulting to `0` for
names absent from the order. -/

/-- `ApplicationData` from `argocd.go` (the Go field `Namespace` is embedded
as `nspace`; `SyncWave` is a non-negative position). -/
structure ApplicationData where
  name : String
  source : String
  version : String
  nspace : String
  syncWave : Nat
  deriving DecidableEq, Repr

/-- The per-component `ApplicationData` values rendered by the Argo-CD
`Generate` (`argocd.go` 66-99): `syncWave := orderMap[name]`, a Go map read
that defaults to `0` when the name is absent. -/
def argoApplicationDatas (refs : List ComponentRef) (order : List String) :
    List ApplicationData :=
  (orderComponentsByDeployment refs order).map (fun r =>
    { name := r.name, source := r.source, version := r.version,
      nspace := GetNamespaceForComponent r.name,
      syncWave := (posMapGo order r.name).getD 0 })

/-! ### SHA-256 (Go `crypto/sha256`, FIPS 180-4)

`GenerateChecksums` hashes each file with `sha256.Sum256` and hex-encodes
the digest.  The standard SHA-256 function is implemented here over byte
lists, with 32-bit words as `Nat` reduced mod `2^32`. -/

/-- Reduce to a 32-bit word. -/
def w32 (n : Nat) : Nat := n % 4294967296

/-- 32-bit right rotation of a word. -/
def rotr32 (x n : Nat) : Nat := (x >>> n) ||| (w32 (x <<< (32 - n)))

/-- The 64 SHA-256 round constants. -/
def sha256K : List Nat :=
  [1116352408, 1899447441, 3049323471, 3921009573, 961987163, 1508970993,
   2453635748, 2870763221, 3624381080, 310598401, 607225278, 1426881987,
   1925078388, 2162078206, 2614888103, 3248222580, 3835390401, 4022224774,
   264347078, 604807628, 770255983, 1249150122, 1555081692, 1996064986,
   2554220882, 2821834349, 2952996808, 3210313671, 3336571891, 3584528711,
   113926993, 338241895, 666307205, 773529912, 1294757372, 1396182291,
   1695183700, 1986661051, 2177026350, 2456956037, 2730485921, 2820302411,
   3259730800, 3345764771, 3516065817, 3600352804, 4094571909, 275423344,
   430227734, 506948616, 659060556, 883997877, 958139571, 1322822218,
   1537002063, 1747873779, 1955562222, 2024104815, 2227730452, 2361852424,
   2428436474, 2756734187, 3204031479, 3329325298]

/-- The SHA-256 initial hash state. -/
def sha256H0 : List Nat :=
  [1779033703, 3144134277, 1013904242, 2773480762,
   1359893119, 2600822924, 528734635, 1541459225]

/-- Big-endian 8-byte encoding of the message bit length. -/
def be64 (n : Nat) : List Nat :=
  [(n >>> 56) % 256, (n >>> 48) % 256, (n >>> 40) % 256, (n >>> 32) % 256,
   (n >>> 24) % 256, (n >>> 16) % 256, (n >>> 8) % 256, n % 256]

/-- Big-endian 4-byte encoding of a word. -/
def be32 (n : Nat) : List Nat :=
  [(n >>> 24) % 256, (n >>> 16) % 256, (n >>> 8) % 256, n % 256]

/-- Big-endian packing of bytes into 32-bit words. -/
def bytesToWords : List Nat → List Nat
  | b0 :: b1 :: b2 :: b3 :: rest =>
    (((b0 * 256 + b1) * 256 + b2) * 256 + b3) :: bytesToWords rest
  | _ => []

/-- The small sigma-0 message-schedule function. -/
def ssig0 (x : Nat) : Nat := (rotr32 x 7) ^^^ (rotr32 x 18) ^^^ (x >>> 3)

/-- The small sigma-1 message-schedule function. -/
def ssig1 (x : Nat) : Nat := (rotr32 x 17) ^^^ (rotr32 x 19) ^^^ (x >>> 10)

/-- Extend the 16 block words to the 64-entry message schedule. -/
def extendW : Nat → List Nat → List Nat
  | 0, w => w
  | f + 1, w =>
    let n := w.length
    extendW f (w ++ [w32 ((w.getD (n - 16) 0) + ssig0 (w.getD (n - 15) 0) +
      (w.getD (n - 7) 0) + ssig1 (w.getD (n - 2) 0))])

/-- One SHA-256 compression round on the eight-word state. -/
def sha256Round (s : List Nat) (k w : Nat) : List Nat :=
  match s with
  | [a, b, c, d, e, f, g, h] =>
    let s1 := (rotr32 e 6) ^^^ (rotr32 e 11) ^^^ (rotr32 e 25)
    let ch := (e &&& f) ^^^ ((4294967295 - e) &&& g)
    let t1 := w32 (h + s1 + ch + k + w)
    let s0 := (rotr32 a 2) ^^^ (rotr32 a 13) ^^^ (rotr32 a 22)
    let mj := (a &&& b) ^^^ (a &&& c) ^^^ (b &&& c)
    let t2 := w32 (s0 + mj)
    [w32 (t1 + t2), a, b, c, w32 (d + t1), e, f, g]
  | s => s

/-- Compress one 64-byte block into the hash state. -/
def compressBlock (h : List Nat) (block : List Nat) : List Nat :=
  let w := extendW 48 (bytesToWords block)
  let s := (sha256K.zip w).foldl (fun s kw => sha256Round s kw.1 kw.2) h
  (h.zip s).map (fun p => w32 (p.1 + p.2))

/-- Split the padded message into 64-byte blocks (fuel-bounded recursion). -/
def toBlocksFuel : Nat → List Nat → List (List Nat)
  | 0, _ => []
  | f + 1, l => if l = [] then [] else l.take 64 :: toBlocksFuel f (l.drop 64)

/-- SHA-256 of a byte list, as the 32 digest bytes. -/
def sha256Bytes (msg : List Nat) : List Nat :=
  let padded := msg ++ 0x80 ::
    (List.replicate ((64 - ((msg.length + 9) % 64)) % 64) 0 ++
      be64 (8 * msg.length))
  ((toBlocksFuel padded.length padded).foldl compressBlock sha256H0).map be32
    |>.flatten

/-- Lowercase hexadecimal digit. -/
def hexDigit (n : Nat) : Char :=
  if n < 10 then Char.ofNat (48 + n) else Char.ofNat (87 + n)

/-- Lowercase hex encoding of a byte list (Go `hex.EncodeToString`). -/
def bytesToHex (bs : List Nat) : String :=
  String.mk (bs.foldr (fun b acc => hexDigit (b / 16) :: hexDigit (b % 16) :: acc) [])

/-- Lowercase hex SHA-256 of a byte list, as written by `GenerateChecksums`. -/
def sha256Hex (msg : List Nat) : String := bytesToHex (sha256Bytes msg)

/-- Known-answer test: SHA-256 of the empty message. -/
theorem sha256Hex_empty :
    sha256Hex [] =
      "e3b0c44298fc1c149afbf4c8996fb92427ae41e4649b934ca495991b7852b855" := by
  decide

/-- Known-answer test: SHA-256 of `"abc"`. -/
theorem sha256Hex_abc :
    sha256Hex [0x61, 0x62, 0x63] =
      "ba7816bf8f01cfea414140de5dae2223b00361a396177a9cb410ff61f20015ad" := by
  decide

/-! ### `GenerateChecksums` (`pkg/bundler/checksum/checksum.go` 32-68)

The filesystem read (`os.ReadFile`) is a parameter `readFile`; the standard
library's lexical `filepath.Rel` is a parameter `rel` (`none` models its
error, upon which the Go code falls back to the absolute path).  The model
produces the `checksums.txt` content string the Go code writes; the write
itself and the context-cancellation guard are outside the model. -/

/-- The checksum line accumulation loop of `GenerateChecksums`: one
`"<hex>  <relpath>"` line per file, failing on the first unreadable file. -/
def checksumLines (readFile : String → Option (List Nat))
    (rel : String → String → Option String) (bundleDir : String) :
    List String → Option (List String)
  | [] => some []
  | f :: rest =>
    match readFile f with
    | none => none
    | some data =>
      match checksumLines readFile rel bundleDir rest with
      | none => none
      | some ls =>
        some ((sha256Hex data ++ "  " ++ ((rel bundleDir f).getD f)) :: ls)

/-- `GenerateChecksums`: the `checksums.txt` content — the lines joined with
LF and a trailing LF (`strings.Join(checksums, "\n") + "\n"`). -/
def GenerateChecksums (readFile : String → Option (List Nat))
    (rel : String → String → Option String) (bundleDir : String)
    (files : List String) : Option String :=
  (checksumLines readFile rel bundleDir files).map
    (fun ls => String.intercalate "\n" ls ++ "\n")

theorem checksumLines_all_readable (readFile : String → Option (List Nat))
    (rel : String → String → Option String) (bundleDir : String)
    (files : List String) (h : ∀ f ∈ files, (readFile f).isSome) :
    checksumLines readFile rel bundleDir files =
      some (files.map (fun f =>
        sha256Hex ((readFile f).getD []) ++ "  " ++ ((rel bundleDir f).getD f))) := by
  induction files with
  | nil => rfl
  | cons f rest ih =>
    have hf : (readFile f).isSome := h f (by simp)
    rcases hd : readFile f with _ | data
    · rw [hd] at hf
      cases hf
    · rw [checksumLines, hd, ih (fun g hg => h g (by simp [hg]))]
      simp [hd]

/-- Splitting a character list at every occurrence of a separator. -/
def splitOnChar (c : Char) : List Char → List (List Char)
  | [] => [[]]
  | x :: xs =>
    match splitOnChar c xs with
    | [] => [[x]]
    | h :: t => if x = c then [] :: h :: t else (x :: h) :: t

/-- The lines of a string (split at LF), used to state line-level facts
about the generated content. -/
def linesOf (s : String) : List String :=
  (splitOnChar '\n' s.toList).map String.mk

/-- The concrete filesystem used in closed checksum statements: two
single-byte files under `/b`. -/
def cexReadFile : String → Option (List Nat) := fun f =>
  if f = "/b/a.txt" then some [0x61]
  else if f = "/b/b.txt" then some [0x62]
  else none

/-- The concrete `filepath.Rel` results for the two files under `/b`. -/
def cexRel : String → String → Option String := fun d f =>
  if d = "/b" ∧ f = "/b/a.txt" then some "a.txt"
  else if d = "/b" ∧ f = "/b/b.txt" then some "b.txt"
  else none

/-! ### Bundler orchestration (`pkg/bundler/options.go`)

`selectBundlers` keys the chosen bundlers by a Go `map[BundleType]Bundler`,
and `makeSequential` iterates that map with `range` — an order the Go
specification leaves unspecified.  A map enumeration is modelled as any
duplicate-free listing of the selected key set, i.e. any permutation of the
caller's registered types after dropping duplicates. -/

/-- `BundleType` from `pkg/bundler/common/types.go`: a string typedef. -/
abbrev BundleType := String

/-- The key set of the map built by `selectBundlers` for a non-empty type
list: the caller's types that are registered, first occurrences only, in
caller order (the map itself does not retain this order). -/
def selectedTypes {β : Type} (reg : BundleType → Option β)
    (types : List BundleType) : List BundleType :=
  (types.filter (fun t => (reg t).isSome)).dedup

/-- `enum` is a possible Go `range` order over the map `selectBundlers`
builds: some permutation of the selected key set. -/
def validEnumeration {β : Type} (reg : BundleType → Option β)
    (types enum : List BundleType) : Prop :=
  List.Perm enum (selectedTypes reg types)

/-- `BundleOutput`, restricted to the fields `makeSequential` accumulates:
per-bundler results in append order and `BundleError` records
`(bundlerType, message)`. -/
structure BundleOutput (ρ : Type) where
  results : List ρ
  errors : List (BundleType × String)
  deriving Repr

/-- `makeSequential` from `options.go` 156-199, iterating the map in the
order `enum`: each bundler runs once (`run` models `executeBundler`,
returning the result and an optional error), the result is appended, an
error is recorded, and `failFast` aborts after the first error.  The `Bool`
of the result is true when the Go function returns a non-nil error. -/
def makeSequential {ρ : Type} (run : BundleType → ρ × Option String)
    (failFast : Bool) : List BundleType → BundleOutput ρ →
      BundleOutput ρ × Bool
  | [], out => (out, failFast ∧ out.errors ≠ [])
  | t :: rest, out =>
    let r := run t
    let out1 : BundleOutput ρ :=
      { results := out.results ++ [r.1]
        errors := out.errors ++
          (match r.2 with | some e => [(t, e)] | none => []) }
    match r.2 with
    | some _ =>
      if failFast then (out1, true) else makeSequential run failFast rest out1
    | none => makeSequential run failFast rest out1

theorem makeSequential_no_failfast {ρ : Type}
    (run : BundleType → ρ × Option String) (enum : List BundleType)
    (out : BundleOutput ρ) :
    (makeSequential run false enum out).1.results =
      out.results ++ enum.map (fun t => (run t).1) := by
  induction enum generalizing out with
  | nil => simp [makeSequential]
  | cons t rest ih =>
    rw [makeSequential]
    rcases hr : (run t).2 with _ | e
    · simp [ih]
    · simp [ih]

/-- The two bundler types the repository registers (`gpu-operator` and
`network-operator`), as an example registry. -/
def cexReg : BundleType → Option Unit := fun t =>
  if t = "gpu-operator" ∨ t = "network-operator" then some () else none

/-! ### Recipe HTTP handler (`Builder.HandleRecipes`)

The handler's control flow over the request method, the criteria parse and
the recipe build; the response is modelled by its status code and the
headers the handler sets. -/

/-- The cache TTL constant `recipeCacheTTLInSec = 600` (commented in the
source as "10 minutes in seconds"). -/
def recipeCacheTTLInSec : Nat := 600

/-- The observable part of the handler's HTTP response: status code, the
`Allow` header and the `Cache-Control` header. -/
structure HttpResponse where
  status : Nat
  allowHeader : Option String
  cacheControl : Option String
  deriving DecidableEq, Repr

/-- `Builder.HandleRecipes`: non-GET methods get 405 with an `Allow` header;
a criteria parse failure gets 400; a build failure is written by
`server.WriteErrorFromErr`, whose status mapping is the parameter
`errStatus` (modelled from the spec: `WriteErrorFromErr` maps build-error
kinds to 4xx/5xx codes; its implementation is not under `src/`); on success
the handler sets `Cache-Control: public, max-age=<recipeCacheTTLInSec>` and
responds 200. -/
def HandleRecipes {ρ : Type} (method : String)
    (parseResult : Except String Criteria) (buildResult : Except String ρ)
    (errStatus : String → Nat) : HttpResponse :=
  if method ≠ "GET" then
    { status := 405, allowHeader := some "GET", cacheControl := none }
  else
    match parseResult with
    | Except.error _ =>
      { status := 400, allowHeader := none, cacheControl := none }
    | Except.ok _ =>
      match buildResult with
      | Except.error e =>
        { status := errStatus e, allowHeader := none, cacheControl := none }
      | Except.ok _ =>
        { status := 200, allowHeader := none,
          cacheControl := some ("public, max-age=" ++
            toString recipeCacheTTLInSec) }

/-- C1: `Criteria.Matches a b` is true iff, field by field, one side is the
wildcard (`"any"`, or `0` for nodes) or the two sides are equal. -/
theorem C1_matches_iff (a b : Criteria) :
    a.Matches b = true ↔
      (a.service = "any" ∨ b.service = "any" ∨ a.service = b.service) ∧
      (a.fabric = "any" ∨ b.fabric = "any" ∨ a.fabric = b.fabric) ∧
      (a.accelerator = "any" ∨ b.accelerator = "any" ∨ a.accelerator = b.accelerator) ∧
      (a.intent = "any" ∨ b.intent = "any" ∨ a.intent = b.intent) ∧
      (a.worker = "any" ∨ b.worker = "any" ∨ a.worker = b.worker) ∧
      (a.system = "any" ∨ b.system = "any" ∨ a.system = b.system) ∧
      (a.nodes = 0 ∨ b.nodes = 0 ∨ a.nodes = b.nodes) :=
  matches_eq_true_iff a b

/-- C8: criteria matching is reflexive and symmetric, and there are concrete
criteria `a`, `b`, `c` with `a.Matches b`, `b.Matches c` but not `a.Matches c`,
so it is not transitive. -/
theorem C8_matches_refl_symm_not_trans :
    (∀ a : Criteria, a.Matches a = true) ∧
    (∀ a b : Criteria, a.Matches b = b.Matches a) ∧
    (∃ a b c : Criteria,
      a.Matches b = true ∧ b.Matches c = true ∧ a.Matches c = false) := by
  refine ⟨?_, ?_, ?_⟩
  · intro a
    rw [matches_eq_true_iff]
    tauto
  · intro a b
    rw [Bool.eq_iff_iff, matches_eq_true_iff, matches_eq_true_iff]
    constructor
    · rintro ⟨h1, h2, h3, h4, h5, h6, h7⟩
      exact ⟨tri_symm h1, tri_symm h2, tri_symm h3, tri_symm h4, tri_symm h5,
        tri_symm h6, tri_symm h7⟩
    · rintro ⟨h1, h2, h3, h4, h5, h6, h7⟩
      exact ⟨tri_symm h1, tri_symm h2, tri_symm h3, tri_symm h4, tri_symm h5,
        tri_symm h6, tri_symm h7⟩
  · refine ⟨{ NewCriteria with service := "eks" }, NewCriteria,
      { NewCriteria with service := "gke" }, ?_, ?_, ?_⟩
    · rw [matches_eq_true_iff]
      simp [NewCriteria]
    · rw [matches_eq_true_iff]
      simp [NewCriteria]
    · rw [Bool.eq_false_iff, Ne, matches_eq_true_iff]
      simp [NewCriteria]

/-- Component list used in concrete ordering statements: two components
absent from the order (`x` before `y`) and one present (`a`). -/
def cexComponents : List ComponentRef :=
  [⟨"x", "src-x", "1.0"⟩, ⟨"y", "src-y", "1.0"⟩, ⟨"a", "src-a", "1.0"⟩]

/-- C5 (counterexample): with components `[x, y, a]` and non-empty order
`["a"]`, the swap-based sort returns `[a, y, x]` — the two components absent
from the order come out as `y, x`, reversing their input order, so the
claimed stability among absent components fails. -/
theorem C5_stability_counterexample :
    (["a"] : List String) ≠ [] ∧
    orderComponentsByDeployment cexComponents ["a"] =
      [⟨"a", "src-a", "1.0"⟩, ⟨"y", "src-y", "1.0"⟩, ⟨"x", "src-x", "1.0"⟩] ∧
    (orderComponentsByDeployment cexComponents ["a"]).filter
        (fun c => !(["a"].contains c.name)) ≠
      cexComponents.filter (fun c => !(["a"].contains c.name)) := by
  have he := orderComponents_eq_selectSortFuel cexComponents ["a"] (by decide)
  refine ⟨by decide, ?_, ?_⟩
  · rw [he]
    decide
  · rw [he]
    decide

/-- C5 (amended): for every component list and non-empty order,
`orderComponentsByDeployment` places every component whose name is absent
from the order (key `none`) after every component whose name is present;
the relative input order of the absent components is however not preserved
in general. -/
theorem C5_absent_after_present (components : List ComponentRef)
    (order : List String) (h : order ≠ []) :
    (orderComponentsByDeployment components order).Pairwise
      (fun a b => componentKey order a = none → componentKey order b = none) := by
  have hlen : order.length ≠ 0 := by
    intro hh
    exact h (List.length_eq_zero.mp hh)
  refine (orderComponents_sorted components order hlen).imp ?_
  intro a b hf hna
  rcases hkb : componentKey order b with _ | p
  · rfl
  · rw [hna, hkb] at hf
    simp [deployLt] at hf

/-- C5 (witness): the amended separation property at the concrete inputs of
the counterexample. -/
theorem C5_absent_after_present_witness :
    (orderComponentsByDeployment cexComponents ["a"]).Pairwise
      (fun a b => componentKey ["a"] a = none → componentKey ["a"] b = none) :=
  C5_absent_after_present cexComponents ["a"] (by decide)

/-- The component list of the repository's own Flux deployment-order test
(recipe-declared order reversed relative to the deployment order). -/
def fluxTestRefs : List ComponentRef :=
  [⟨"skyhook", "https://example.com", "v1.0.0"⟩,
   ⟨"gpu-operator", "https://example.com", "v25.3.3"⟩,
   ⟨"cert-manager", "https://example.com", "v1.14.0"⟩]

/-- The deployment order of the repository's Flux deployment-order test. -/
def fluxTestOrder : List String := ["cert-manager", "gpu-operator", "skyhook"]

/-- C3: for a non-empty component list whose (non-empty) names all appear in
`deploymentOrder`, the Flux deployer renders the components in deployment
order, the first rendered component carries no `dependsOn` (empty
`DependsOnName`), and each subsequent component depends on the immediately
preceding component of the deployment-ordered sequence — a single linear
chain. -/
theorem C3_flux_linear_chain (refs : List ComponentRef) (order : List String)
    (hne : refs ≠ []) (hnames : ∀ r ∈ refs, r.name ≠ "")
    (hmem : ∀ r ∈ refs, r.name ∈ order) :
    ((fluxHelmReleaseDatas refs order)[0]?).map
      (fun d : HelmReleaseData => d.dependsOnName) = some "" ∧
    (∀ i : Nat, ((fluxHelmReleaseDatas refs order)[i]?).map
        (fun d : HelmReleaseData => d.name) =
      ((orderComponentsByDeployment refs order)[i]?).map
        (fun r : ComponentRef => r.name)) ∧
    (∀ i : Nat, i + 1 < (fluxHelmReleaseDatas refs order).length →
      ((fluxHelmReleaseDatas refs order)[i + 1]?).map
          (fun d : HelmReleaseData => d.dependsOnName) =
        ((orderComponentsByDeployment refs order)[i]?).map
          (fun r : ComponentRef => r.name)) := by
  have hperm := orderComponents_perm refs order
  have hne2 : orderComponentsByDeployment refs order ≠ [] := by
    intro h0
    rw [h0] at hperm
    exact hne hperm.symm.eq_nil
  have hnames2 : ∀ r ∈ orderComponentsByDeployment refs order, r.name ≠ "" :=
    fun r hr => hnames r (hperm.subset hr)
  refine ⟨fluxLoop_first "" "" _ rfl hne2, fun i => fluxLoop_names "" "" _ i,
    fun i hi => ?_⟩
  have hi2 : i + 1 < (orderComponentsByDeployment refs order).length := by
    rw [fluxHelmReleaseDatas, fluxLoop_length] at hi
    exact hi
  exact fluxLoop_chain _ hnames2 "" "" i hi2

/-- C3 (witness): the linear chain at the repository's own test data — the
first rendered component has no `dependsOn` and the second depends on the
first component of the deployment-ordered sequence. -/
theorem C3_flux_linear_chain_witness :
    ((fluxHelmReleaseDatas fluxTestRefs fluxTestOrder)[0]?).map
      (fun d : HelmReleaseData => d.dependsOnName) = some "" ∧
    ((fluxHelmReleaseDatas fluxTestRefs fluxTestOrder)[1]?).map
        (fun d : HelmReleaseData => d.dependsOnName) =
      ((orderComponentsByDeployment fluxTestRefs fluxTestOrder)[0]?).map
        (fun r : ComponentRef => r.name) := by
  have h := C3_flux_linear_chain fluxTestRefs fluxTestOrder (by decide)
    (by decide) (by decide)
  refine ⟨h.1, h.2.2 0 ?_⟩
  have hl : (fluxHelmReleaseDatas fluxTestRefs fluxTestOrder).length = 3 := by
    rw [fluxHelmReleaseDatas, fluxLoop_length,
      (orderComponents_perm fluxTestRefs fluxTestOrder).length_eq]
    rfl
  omega

/-- C4: with a duplicate-free `deploymentOrder` (the documented invariant of
`RecipeResult`), the Argo-CD deployer renders exactly one Application per
component, whose `syncWave` is the component's 0-based position in
`deploymentOrder`, and `0` for components whose name does not appear in the
order. -/
theorem C4_argo_syncwave (refs : List ComponentRef) (order : List String)
    (hnd : order.Nodup) :
    List.Perm (argoApplicationDatas refs order)
      (refs.map (fun r =>
        ({ name := r.name, source := r.source, version := r.version,
           nspace := GetNamespaceForComponent r.name,
           syncWave := (if r.name ∈ order then List.indexOf r.name order
             else 0) } : ApplicationData))) := by
  have hfun : ∀ r : ComponentRef,
      ({ name := r.name, source := r.source, version := r.version,
         nspace := GetNamespaceForComponent r.name,
         syncWave := (posMapGo order r.name).getD 0 } : ApplicationData) =
      { name := r.name, source := r.source, version := r.version,
        nspace := GetNamespaceForComponent r.name,
        syncWave := (if r.name ∈ order then List.indexOf r.name order
          else 0) } := by
    intro r
    by_cases hm : r.name ∈ order
    · rw [posMapGo_eq_indexOf order r.name hnd hm]
      simp [hm]
    · rw [posMapGo_eq_none order r.name hm]
      simp [hm]
  have hfe : (fun r : ComponentRef =>
      ({ name := r.name, source := r.source, version := r.version,
         nspace := GetNamespaceForComponent r.name,
         syncWave := (posMapGo order r.name).getD 0 } : ApplicationData)) =
      (fun r : ComponentRef =>
        ({ name := r.name, source := r.source, version := r.version,
           nspace := GetNamespaceForComponent r.name,
           syncWave := (if r.name ∈ order then List.indexOf r.name order
             else 0) } : ApplicationData)) := funext hfun
  rw [argoApplicationDatas, hfe]
  exact (orderComponents_perm refs order).map _

/-- C4 (witness): the rendered Applications at the repository's test data
carry sync waves 0, 1, 2 along the deployment order. -/
theorem C4_argo_syncwave_witness :
    List.Perm (argoApplicationDatas fluxTestRefs fluxTestOrder)
      (fluxTestRefs.map (fun r =>
        ({ name := r.name, source := r.source, version := r.version,
           nspace := GetNamespaceForComponent r.name,
           syncWave := (if r.name ∈ fluxTestOrder
             then List.indexOf r.name fluxTestOrder
             else 0) } : ApplicationData))) :=
  C4_argo_syncwave fluxTestRefs fluxTestOrder (by decide)

/-- Lexicographic comparison of character lists, used to state what
"sorted by path" means for the checksum lines. -/
def lexLeChars : List Char → List Char → Bool
  | [], _ => true
  | _ :: _, [] => false
  | a :: as, b :: bs => if a = b then lexLeChars as bs else decide (a < b)

/-- An `executeBundler` model whose result records which bundler ran. -/
def cexRun : BundleType → String × Option String := fun t => (t, none)

/-- C7 (counterexample): the bundlers are selected into a Go map, so
`["network-operator", "gpu-operator"]` is a possible sequential iteration
order for the caller list `["gpu-operator", "network-operator"]`; under it
the results appear in an order different from the caller's listed order,
refuting the claimed caller-order guarantee. -/
theorem C7_caller_order_counterexample :
    validEnumeration cexReg ["gpu-operator", "network-operator"]
      ["network-operator", "gpu-operator"] ∧
    (makeSequential cexRun false ["network-operator", "gpu-operator"]
      ⟨[], []⟩).1.results = ["network-operator", "gpu-operator"] ∧
    (selectedTypes cexReg ["gpu-operator", "network-operator"]).map
      (fun t => (cexRun t).1) = ["gpu-operator", "network-operator"] ∧
    (["network-operator", "gpu-operator"] : List String) ≠
      ["gpu-operator", "network-operator"] := by
  refine ⟨?_, by decide, by decide, by decide⟩
  unfold validEnumeration
  decide

/-- C7 (amended): in sequential mode without fail-fast, `Make` invokes each
selected bundler exactly once and appends the per-bundler results in the
invocation order, which is the Go map iteration order over the selected
bundlers — an unspecified permutation of the caller's listed (registered,
deduplicated) types, not necessarily the caller's order. -/
theorem C7_sequential_invocation_order {ρ β : Type}
    (run : BundleType → ρ × Option String) (reg : BundleType → Option β)
    (types enum : List BundleType) (h : validEnumeration reg types enum) :
    (makeSequential run false enum ⟨[], []⟩).1.results =
      enum.map (fun t => (run t).1) ∧
    List.Perm ((makeSequential run false enum ⟨[], []⟩).1.results)
      ((selectedTypes reg types).map (fun t => (run t).1)) := by
  have h1 := makeSequential_no_failfast run enum ⟨[], []⟩
  simp only [List.nil_append] at h1
  refine ⟨h1, ?_⟩
  rw [h1]
  exact h.map _

/-- C7 (witness): the amended ordering statement at the concrete registry
and the reversed enumeration. -/
theorem C7_sequential_invocation_order_witness :
    (makeSequential cexRun false ["network-operator", "gpu-operator"]
      ⟨[], []⟩).1.results =
      (["network-operator", "gpu-operator"] : List BundleType).map
        (fun t => (cexRun t).1) ∧
    List.Perm ((makeSequential cexRun false
        ["network-operator", "gpu-operator"] ⟨[], []⟩).1.results)
      ((selectedTypes cexReg ["gpu-operator", "network-operator"]).map
        (fun t => (cexRun t).1)) :=
  C7_sequential_invocation_order cexRun cexReg
    ["gpu-operator", "network-operator"] ["network-operator", "gpu-operator"]
    (by unfold validEnumeration; decide)

/-- C9 (counterexample): a successful recipe request is answered 200 with
`Cache-Control: public, max-age=600` (the source constant is 600 seconds,
"10 minutes"), not `max-age=300` as claimed. -/
theorem C9_max_age_counterexample :
    (HandleRecipes "GET" (Except.ok NewCriteria) (Except.ok (0 : Nat))
      (fun _ => 500)).status = 200 ∧
    (HandleRecipes "GET" (Except.ok NewCriteria) (Except.ok (0 : Nat))
      (fun _ => 500)).cacheControl = some "public, max-age=600" ∧
    ("public, max-age=600" : String) ≠ "public, max-age=300" := by
  decide

/-- C9 (amended): provided the error writer never answers 200 (the spec maps
build errors to 4xx/5xx), every HTTP 200 response of `HandleRecipes` carries
the header `Cache-Control: public, max-age=600`. -/
theorem C9_success_cache_header {ρ : Type} (method : String)
    (p : Except String Criteria) (b : Except String ρ)
    (errStatus : String → Nat) (herr : ∀ e, errStatus e ≠ 200)
    (h : (HandleRecipes method p b errStatus).status = 200) :
    (HandleRecipes method p b errStatus).cacheControl =
      some "public, max-age=600" := by
  rw [HandleRecipes.eq_def] at h ⊢
  by_cases hm : method ≠ "GET"
  · rw [if_pos hm] at h
    simp at h
  · rw [if_neg hm] at h ⊢
    rcases p with e | c
    · simp at h
    · rcases b with e | x
      · simp only at h
        exact absurd h (herr e)
      · show some ("public, max-age=" ++ toString recipeCacheTTLInSec) =
          some "public, max-age=600"
        decide

/-- C9 (witness): the amended header guarantee at a concrete successful
request. -/
theorem C9_success_cache_header_witness :
    (HandleRecipes "GET" (Except.ok NewCriteria) (Except.ok (0 : Nat))
      (fun _ => 500)).cacheControl = some "public, max-age=600" :=
  C9_success_cache_header "GET" (Except.ok NewCriteria) (Except.ok 0)
    (fun _ => 500) (fun e => by norm_num) (by decide)

set_option maxRecDepth 16384 in
/-- C2 (counterexample): with the readable files `/b/b.txt`, `/b/a.txt`
given in that (unsorted) order, the generated `checksums.txt` lists the
`b.txt` line before the `a.txt` line — the lines follow the input order and
are not sorted by path as claimed.  (Each line is 64 hex characters, two
spaces, then the path, so dropping 66 characters yields the path; the final
`""` is the trailing LF.) -/
theorem C2_checksums_not_sorted :
    (GenerateChecksums cexReadFile cexRel "/b" ["/b/b.txt", "/b/a.txt"]).map
      (fun s => (linesOf s).map (fun line => String.mk (line.toList.drop 66))) =
      some ["b.txt", "a.txt", ""] ∧
    lexLeChars ("b.txt").toList ("a.txt").toList = false := by
  decide

/-- C2 (amended): for every readable file list, `GenerateChecksums` produces
one line per input file — the lowercase hex SHA-256 of the file's bytes, two
spaces, then the path relative to the bundle directory (the absolute path
when `filepath.Rel` fails) — in the order of the input list (not sorted by
path), joined with LF and ending in a trailing LF. -/
theorem C2_checksums_content (readFile : String → Option (List Nat))
    (rel : String → String → Option String) (bundleDir : String)
    (files : List String) (h : ∀ f ∈ files, (readFile f).isSome) :
    GenerateChecksums readFile rel bundleDir files =
      some (String.intercalate "\n" (files.map (fun f =>
        sha256Hex ((readFile f).getD []) ++ "  " ++
          ((rel bundleDir f).getD f))) ++ "\n") := by
  rw [GenerateChecksums, checksumLines_all_readable readFile rel bundleDir files h]
  rfl

/-- C2 (witness): the amended content equation at the concrete two-file
bundle. -/
theorem C2_checksums_content_witness :
    GenerateChecksums cexReadFile cexRel "/b" ["/b/a.txt", "/b/b.txt"] =
      some (String.intercalate "\n"
        ((["/b/a.txt", "/b/b.txt"] : List String).map (fun f =>
          sha256Hex ((cexReadFile f).getD []) ++ "  " ++
            ((cexRel "/b" f).getD f))) ++ "\n") :=
  C2_checksums_content cexReadFile cexRel "/b" ["/b/a.txt", "/b/b.txt"]
    (by decide)

/-- C10: for every component list and every order list — empty, naming
absent components, or omitting present ones — `orderComponentsByDeployment`
returns a permutation of its input: the same multiset of `ComponentRef`
values, nothing dropped or duplicated. -/
theorem C10_orderComponents_permutation (components : List ComponentRef)
    (order : List String) :
    List.Perm (orderComponentsByDeployment components order) components :=
  orderComponents_perm components order

end CNS
